import Mathlib

/-!
Verification of the logf structured logger (logfmt line encoder).

Shallow embedding conventions:
* Go strings / byte slices are modelled as `List Nat` (byte values).
* The clock (`time.Now().Format(...)` / `AppendTime`) is an external
  capability, passed in as the already formatted byte list `now`.
* `runtime.Caller(depth)` is an external capability, passed in as
  `cres : Option (List Nat × Int)` (`none` models `ok = false`).
* The sink is modelled by its outcome: `writeFails : Bool`; the emitted
  bytes and the side effects of a log call are collected in an event
  trace (`Event`): sink writes, the fallback diagnostic log of a failed
  write (`stdlog.Printf`), and process termination (`os.Exit`).
* Go `map` iteration order is unspecified; a `Fields` map is modelled as
  an association list iterated in list order.
* Machine integers (`Level`, line numbers) are modelled as `Int`.
-/

namespace Logf

/-- Byte list of an ASCII string literal (every literal used below is
ASCII, so code points coincide with UTF-8 bytes). -/
def asciiB (s : String) : List Nat := s.data.map Char.toNat

/-- Bytes of the literal `null`. -/
def nullB : List Nat := asciiB ("null")

/-- Source constant `tsKey = "timestamp="` (the `=` is part of the key
constant in the source). -/
def tsKeyB : List Nat := asciiB ("timestamp=")

/-- Source constant `hex = "0123456789abcdef"`. -/
def hexDigits : List Nat := asciiB ("0123456789abcdef")

/-- ANSI reset code `"\033[0m"` (27 is ESC). -/
def resetB : List Nat := 27 :: asciiB ("[0m")

/-- ANSI purple `"\033[35m"`. -/
def purpleB : List Nat := 27 :: asciiB ("[35m")

/-- ANSI red `"\033[31m"`. -/
def redB : List Nat := 27 :: asciiB ("[31m")

/-- ANSI yellow `"\033[33m"`. -/
def yellowB : List Nat := 27 :: asciiB ("[33m")

/-- ANSI cyan `"\033[36m"`. -/
def cyanB : List Nat := 27 :: asciiB ("[36m")

/-- Source `colorLvlMap`: color per level (Debug, Info, Warn, Error, Fatal). -/
def colorLvlMap : List (List Nat) := [purpleB, cyanB, yellowB, redB, redB]

/-- Source `getColoredKey(k, lvl) = colorLvlMap[lvl] + k + reset`.
Go panics on an out-of-range index; the `getD` default is unreachable
from the five leveled entry points, which only pass levels 0..4. -/
def getColoredKey (k : List Nat) (lvl : Int) : List Nat :=
  colorLvlMap.getD lvl.toNat [] ++ k ++ resetB

/-- Source `Level.String()`: canonical lowercase names for the five
levels, the sentinel `invalid lvl` otherwise. -/
def levelString (l : Int) : String :=
  if l = 0 then ("debug")
  else if l = 1 then ("info")
  else if l = 2 then ("warn")
  else if l = 3 then ("error")
  else if l = 4 then ("fatal")
  else ("invalid lvl")

/-- Source `caller(depth)`: `runtime.Caller` result is the capability
argument; on failure (`none`) the sentinel file `???` and line `0` are
substituted, and the result is `file + ":" + strconv.Itoa(line)`. -/
def caller : Option (List Nat × Int) → List Nat
  | some fl => fl.1 ++ [58] ++ asciiB (toString fl.2)
  | none => asciiB ("???") ++ [58] ++ asciiB (toString (0 : Int))

/-- Second-byte lower acceptance bound of Go `utf8.DecodeRune`
(`acceptRanges`): `0xA0` after `0xE0`, `0x90` after `0xF0`, else `0x80`. -/
def acceptLo (b0 : Nat) : Nat :=
  if b0 = 0xE0 then 0xA0 else if b0 = 0xF0 then 0x90 else 0x80

/-- Second-byte upper acceptance bound of Go `utf8.DecodeRune`:
`0x9F` after `0xED`, `0x8F` after `0xF4`, else `0xBF`. -/
def acceptHi (b0 : Nat) : Nat :=
  if b0 = 0xED then 0x9F else if b0 = 0xF4 then 0x8F else 0xBF

/-- Head byte of a list, defaulting to 0 (models an index access that
Go guards with a prior length check, so the default is never hit). -/
def byteAt0 : List Nat → Nat
  | [] => 0
  | b :: _ => b

/-- Second byte of a list (same guarded-index convention). -/
def byteAt1 : List Nat → Nat
  | _ :: b :: _ => b
  | _ => 0

/-- Third byte of a list (same guarded-index convention). -/
def byteAt2 : List Nat → Nat
  | _ :: _ :: b :: _ => b
  | _ => 0

/-- Two-byte case of Go `utf8.DecodeRune`: length check against the
size class, continuation byte against the accept range, then the code
point from the masked bits. -/
def decode2 (b0 : Nat) (rest : List Nat) : Nat × Nat :=
  if rest.length + 1 < 2 then (0xFFFD, 1)
  else
    let b1 := byteAt0 rest
    if b1 < acceptLo b0 ∨ acceptHi b0 < b1 then (0xFFFD, 1)
    else (b0 % 0x20 * 0x40 + b1 % 0x40, 2)

/-- Three-byte case of Go `utf8.DecodeRune`. -/
def decode3 (b0 : Nat) (rest : List Nat) : Nat × Nat :=
  if rest.length + 1 < 3 then (0xFFFD, 1)
  else
    let b1 := byteAt0 rest
    if b1 < acceptLo b0 ∨ acceptHi b0 < b1 then (0xFFFD, 1)
    else
      let b2 := byteAt1 rest
      if b2 < 0x80 ∨ 0xBF < b2 then (0xFFFD, 1)
      else (b0 % 0x10 * 0x1000 + b1 % 0x40 * 0x40 + b2 % 0x40, 3)

/-- Four-byte case of Go `utf8.DecodeRune`. -/
def decode4 (b0 : Nat) (rest : List Nat) : Nat × Nat :=
  if rest.length + 1 < 4 then (0xFFFD, 1)
  else
    let b1 := byteAt0 rest
    if b1 < acceptLo b0 ∨ acceptHi b0 < b1 then (0xFFFD, 1)
    else
      let b2 := byteAt1 rest
      if b2 < 0x80 ∨ 0xBF < b2 then (0xFFFD, 1)
      else
        let b3 := byteAt2 rest
        if b3 < 0x80 ∨ 0xBF < b3 then (0xFFFD, 1)
        else
          (b0 % 0x8 * 0x40000 + b1 % 0x40 * 0x1000 + b2 % 0x40 * 0x40
            + b3 % 0x40, 4)

/-- Go `unicode/utf8.DecodeRune` on a byte list, following the source
shape: classify the first byte (ASCII returns itself with size 1; an
invalid starter returns `RuneError` = 0xFFFD with size 1; otherwise the
starter picks the 2-, 3- or 4-byte size class, handled by `decode2`,
`decode3`, `decode4`).  On the empty input the result is (0xFFFD, 0). -/
def decodeRune : List Nat → Nat × Nat
  | [] => (0xFFFD, 0)
  | b0 :: rest =>
    if b0 < 0x80 then (b0, 1)
    else if b0 < 0xC2 ∨ 0xF4 < b0 then (0xFFFD, 1)
    else if b0 ≤ 0xDF then decode2 b0 rest
    else if b0 ≤ 0xEF then decode3 b0 rest
    else decode4 b0 rest

/-- Source `checkEscapingRune(r)`: true for `=` (61), space (32),
`"` (34) and `utf8.RuneError` (0xFFFD). -/
def checkEscapingRune (r : Nat) : Bool :=
  r == 61 || r == 32 || r == 34 || r == 0xFFFD

/-- Fueled kernel of `bytes.IndexFunc(s, checkEscapingRune) != -1`:
decode rune by rune (invalid bytes decode to `RuneError`) and test
each decoded rune.  The fuel only needs to cover `s.length` since every
step consumes at least one byte. -/
def hasEscRuneF : Nat → List Nat → Bool
  | 0, _ => false
  | _ + 1, [] => false
  | fuel + 1, b :: rest =>
    checkEscapingRune (decodeRune (b :: rest)).1
      || hasEscRuneF fuel ((b :: rest).drop (decodeRune (b :: rest)).2)

/-- Whether `bytes.IndexFunc(s, checkEscapingRune)` finds a match
(the source only uses the found / not-found bit of the index). -/
def hasEscRune (s : List Nat) : Bool := hasEscRuneF s.length s

/-- Escape bytes for one ASCII byte that needs escaping inside a quoted
string, following the `switch` in `writeQuotedString`: `\\` and `\"`,
then `\n`, `\r`, `\t`, and `\u00HH` (lowercase hex) for the remaining
control bytes. 92 is backslash, 34 the double quote. -/
def escByte (b : Nat) : List Nat :=
  if b = 92 ∨ b = 34 then [92, b]
  else if b = 10 then [92, 110]
  else if b = 13 then [92, 114]
  else if b = 9 then [92, 116]
  else [92, 117, 48, 48, hexDigits.getD (b / 16) 0, hexDigits.getD (b % 16) 0]

/-- Literal escape `�` emitted for invalid UTF-8. -/
def ufffdB : List Nat := [92, 117, 102, 102, 102, 100]

/-- Loop body of source `writeQuotedString` (between the two quote
bytes), with the source's deferred-copy bookkeeping: `start` marks the
beginning of the pending verbatim run, `i` the scan position.  The fuel
decreases once per iteration while `i` advances by at least one, so
fuel `s.length` never runs out; the fuel-exhausted arm repeats the
final flush `s[start:]` of the source. -/
def writeQuotedStringLoop (s : List Nat) : Nat → Nat → Nat → List Nat
  | 0, start, _ => (s.drop start).take (s.length - start)
  | fuel + 1, start, i =>
    if h : i < s.length then
      if s.get ⟨i, h⟩ < 0x80 then
        if 0x20 ≤ s.get ⟨i, h⟩ ∧ s.get ⟨i, h⟩ ≠ 92 ∧ s.get ⟨i, h⟩ ≠ 34 then
          writeQuotedStringLoop s fuel start (i + 1)
        else
          (s.drop start).take (i - start) ++ escByte (s.get ⟨i, h⟩)
            ++ writeQuotedStringLoop s fuel (i + 1) (i + 1)
      else if (decodeRune (s.drop i)).1 = 0xFFFD then
        (s.drop start).take (i - start) ++ ufffdB
          ++ writeQuotedStringLoop s fuel (i + (decodeRune (s.drop i)).2)
              (i + (decodeRune (s.drop i)).2)
      else
        writeQuotedStringLoop s fuel start (i + (decodeRune (s.drop i)).2)
    else (s.drop start).take (s.length - start)

/-- Source `writeQuotedString`: opening quote, escaped body, closing
quote (34 is the double-quote byte). -/
def writeQuotedString (s : List Nat) : List Nat :=
  34 :: writeQuotedStringLoop s s.length 0 0 ++ [34]

/-- Source `escapeAndWriteString` (part_001 variant): quote the string
iff `bytes.IndexFunc` finds a rune to escape, else append it verbatim. -/
def escapeAndWriteString (s : List Nat) : List Nat :=
  if hasEscRune s then writeQuotedString s else s

/-- Modelled from the spec: the escape gate of the newest variant,
whose source is not in the snapshot (only its tests are): in addition
to `bytes.IndexFunc` finding a rune to escape, a string exactly equal
to the literal `null` is quoted, to disambiguate it from the null
sentinel (spec section 4.3). -/
def escapeAndWriteStringM (s : List Nat) : List Nat :=
  if hasEscRune s ∨ s = nullB then writeQuotedString s else s

/-- Modelled from the spec (fueled kernel): the quoted-form body
transformation of spec section 4.3, unit by unit: bytes needing no
escaping are copied verbatim, `\` and `"` become `\\` and `\"`, newline,
carriage return and tab become `\n`, `\r`, `\t`, any other byte below
0x20 becomes `\u00HH` with two lowercase hex digits, a multi-byte
sequence that decodes to a value other than U+FFFD is copied verbatim,
and any sequence the decoder reports as U+FFFD — every invalid UTF-8
sequence, and also the valid three-byte encoding of the replacement
character itself — is replaced by the literal ufffd escape (the source
tests only the decoded rune, so it conflates the two cases). -/
def escBodyF : Nat → List Nat → List Nat
  | 0, _ => []
  | _ + 1, [] => []
  | fuel + 1, b :: rest =>
    if b < 0x80 then
      if 0x20 ≤ b ∧ b ≠ 92 ∧ b ≠ 34 then b :: escBodyF fuel rest
      else escByte b ++ escBodyF fuel rest
    else if (decodeRune (b :: rest)).1 = 0xFFFD then
      ufffdB ++ escBodyF fuel ((b :: rest).drop (decodeRune (b :: rest)).2)
    else
      (b :: rest).take (decodeRune (b :: rest)).2
        ++ escBodyF fuel ((b :: rest).drop (decodeRune (b :: rest)).2)

/-- Modelled from the spec: the section 4.3 body transformation, with
the decoder's U+FFFD conflation made explicit (see `escBodyF`). -/
def escBody (s : List Nat) : List Nat := escBodyF s.length s

/-- Unicode scalar value: in range and not a surrogate. -/
def isScalar (c : Nat) : Prop := c < 0x110000 ∧ (c < 0xD800 ∨ 0xDFFF < c)

instance (c : Nat) : Decidable (isScalar c) := by
  unfold isScalar; infer_instance

/-- First-principles UTF-8 encoding of a scalar value (1 to 4 bytes). -/
def utf8Encode (c : Nat) : List Nat :=
  if c < 0x80 then [c]
  else if c < 0x800 then [0xC0 + c / 0x40, 0x80 + c % 0x40]
  else if c < 0x10000 then
    [0xE0 + c / 0x1000, 0x80 + c / 0x40 % 0x40, 0x80 + c % 0x40]
  else
    [0xF0 + c / 0x40000, 0x80 + c / 0x1000 % 0x40, 0x80 + c / 0x40 % 0x40,
      0x80 + c % 0x40]

/-- Values a field can carry, as dispatched by the type switch of
source `writeToBuf` / `getString`: Go `nil`, `string`, the integer
cases (all widened to `int64`), a `fmt.Stringer` (carrying the result
of its `String()` method), a `Level` (which is matched by the
`fmt.Stringer` case), and the `default` case (carrying the
deterministic `fmt.Sprintf` percent-v rendering of the value).
Floats are not needed by any claim and are omitted. -/
inductive Value where
  | vNull
  | vString (s : List Nat)
  | vInt (i : Int)
  | vStringer (s : List Nat)
  | vLevel (l : Int)
  | vOther (r : List Nat)
deriving DecidableEq

/-- Value rendering of source `writeToBuf` (part_001): strings,
stringers and the generic case are escape-checked; integers are
appended directly (`AppendInt`, decimal); a `Level` hits the
`fmt.Stringer` case; Go `nil` hits the `default` case, where
`fmt.Sprintf` renders it as the angle-bracket nil form. -/
def valBytes : Value → List Nat
  | Value.vNull => escapeAndWriteString (asciiB ("<nil>"))
  | Value.vString s => escapeAndWriteString s
  | Value.vInt i => asciiB (toString i)
  | Value.vStringer s => escapeAndWriteString s
  | Value.vLevel l => escapeAndWriteString (asciiB (levelString l))
  | Value.vOther r => escapeAndWriteString r

/-- Modelled from the spec: value rendering of the newest variant,
whose source is not in the snapshot (only its tests are): a `nil`
value is rendered as the literal `null`, appended directly without the
escape gate (spec section 4.2, absent/null case); all other cases are
as in the source dispatch, but routed through the newest escape gate. -/
def valBytesM : Value → List Nat
  | Value.vNull => asciiB ("null")
  | Value.vString s => escapeAndWriteStringM s
  | Value.vInt i => asciiB (toString i)
  | Value.vStringer s => escapeAndWriteStringM s
  | Value.vLevel l => escapeAndWriteStringM (asciiB (levelString l))
  | Value.vOther r => escapeAndWriteStringM r

/-- Key rendering of source `writeToBuf` / `writeStringToBuf`: the key
(colored when color is enabled) goes through the escape gate. -/
def keyBytes (color : Bool) (k : List Nat) (lvl : Int) : List Nat :=
  if color then escapeAndWriteString (getColoredKey k lvl)
  else escapeAndWriteString k

/-- Source `writeToBuf`: key, `=` (61), dispatched value, then a
trailing space (32) when `space` is set. -/
def writeToBuf (k : List Nat) (v : Value) (lvl : Int) (color space : Bool) :
    List Nat :=
  keyBytes color k lvl ++ [61] ++ valBytes v ++ (if space then [32] else [])

/-- Modelled from the spec: `writeToBuf` of the newest variant (value
dispatch with the `nil` case, see `valBytesM`). -/
def writeToBufM (k : List Nat) (v : Value) (lvl : Int) (color space : Bool) :
    List Nat :=
  keyBytes color k lvl ++ [61] ++ valBytesM v ++ (if space then [32] else [])

/-- Source `writeStringToBuf`: like `writeToBuf` but the value is a
string, escape-checked directly. -/
def writeStringToBuf (k v : List Nat) (lvl : Int) (color space : Bool) :
    List Nat :=
  keyBytes color k lvl ++ [61] ++ escapeAndWriteString v
    ++ (if space then [32] else [])

/-- Source `writeTimeToBuf`: the `timestamp=` key constant (colored as
a whole when color is enabled, and never escape-checked), the formatted
time, then a space. -/
def writeTimeToBuf (color : Bool) (lvl : Int) (now : List Nat) : List Nat :=
  (if color then getColoredKey tsKeyB lvl else tsKeyB) ++ now ++ [32]

/-- Logger configuration relevant to the claims: `level`, `enableColor`,
`enableCaller` fields of source `Logger`.  The output writer, timestamp
format and caller skip count are externalized into the `writeFails`,
`now` and `cres` capability arguments. -/
structure Config where
  level : Int
  enableColor : Bool
  enableCaller : Bool
deriving DecidableEq

/-- Observable side effects of one log call: a sink write of a byte
list, the fallback diagnostic (`stdlog.Printf`) after a failed sink
write, and process termination (`os.Exit code`). -/
inductive Event where
  | write (bytes : List Nat)
  | diag
  | exit (code : Nat)
deriving DecidableEq

/-- Whether an event is a process termination. -/
def Event.isExit : Event → Bool
  | Event.exit _ => true
  | _ => false

/-- Trailing-space bookkeeping of the field loop in source `handleLog`:
`space = count != len(fields)-1`, i.e. every field but the last gets a
trailing space.  Fields are an association list standing for the Go map
in its iteration order. -/
def fieldsBytes (lvl : Int) (color : Bool) :
    List (List Nat × Value) → List Nat
  | [] => []
  | [kv] => writeToBuf kv.1 kv.2 lvl color false
  | kv :: kv2 :: rest =>
    writeToBuf kv.1 kv.2 lvl color true ++ fieldsBytes lvl color (kv2 :: rest)

/-- The full logfmt line assembled by source `handleLog` after the
level filter: timestamp, level, message, optional caller, user fields,
then the terminating newline (10). -/
def buildLine (cfg : Config) (msg : List Nat) (lvl : Int)
    (fields : List (List Nat × Value)) (now : List Nat)
    (cres : Option (List Nat × Int)) : List Nat :=
  writeTimeToBuf cfg.enableColor lvl now
    ++ writeToBuf (asciiB ("level")) (Value.vLevel lvl) lvl cfg.enableColor true
    ++ writeStringToBuf (asciiB ("message")) msg lvl cfg.enableColor true
    ++ (if cfg.enableCaller then
          writeToBuf (asciiB ("caller")) (Value.vString (caller cres)) lvl
            cfg.enableColor true
        else [])
    ++ fieldsBytes lvl cfg.enableColor fields
    ++ [10]

/-- Source `handleLog` as an event trace: records below the configured
level are discarded before any encoding; otherwise the line is built
and written to the sink, and a failed write is reported through the
fallback diagnostic log only. -/
def handleLog (cfg : Config) (msg : List Nat) (lvl : Int)
    (fields : List (List Nat × Value)) (now : List Nat)
    (cres : Option (List Nat × Int)) (writeFails : Bool) : List Event :=
  if lvl < cfg.level then []
  else
    Event.write (buildLine cfg msg lvl fields now cres)
      :: (if writeFails then [Event.diag] else [])

/-- Source `Logger.Fatal`: `handleLog` at `FatalLevel` (4) with no
fields, then `os.Exit(1)`. -/
def LoggerFatal (cfg : Config) (msg now : List Nat)
    (cres : Option (List Nat × Int)) (writeFails : Bool) : List Event :=
  handleLog cfg msg 4 [] now cres writeFails ++ [Event.exit 1]

/-- Source `FieldLogger` (field_logger.go): a derived logger carrying
its fields; its leveled methods hand the stored fields to `handleLog`. -/
structure FieldLogger where
  fields : List (List Nat × Value)
deriving DecidableEq

/-- Source `Logger.WithFields`: wrap the given fields. -/
def WithFields (fields : List (List Nat × Value)) : FieldLogger :=
  { fields := fields }

/-- Source `Logger.WithError`: a nil error yields a derived logger with
no fields at all; otherwise one `error` field holding the error text. -/
def WithError : Option (List Nat) → FieldLogger
  | none => { fields := [] }
  | some e => WithFields [(asciiB ("error"), Value.vString e)]

/-- A leveled call on a derived logger: `handleLog` with the stored
fields (field_logger.go `Debug` / `Info` / `Warn` / `Error`). -/
def fieldLoggerLog (cfg : Config) (fl : FieldLogger) (msg : List Nat)
    (lvl : Int) (now : List Nat) (cres : Option (List Nat × Int))
    (writeFails : Bool) : List Event :=
  handleLog cfg msg lvl fl.fields now cres writeFails

/-- Source `FieldLogger.Fatal` (field_logger.go lines 29-34): despite
its doc comment announcing a fatal-level line, it hands `ErrorLevel`
(3) to `handleLog`, then calls `os.Exit(1)`. -/
def FieldLoggerFatal (cfg : Config) (fl : FieldLogger) (msg now : List Nat)
    (cres : Option (List Nat × Int)) (writeFails : Bool) : List Event :=
  handleLog cfg msg 3 fl.fields now cres writeFails ++ [Event.exit 1]

/-- One `key=value` pair without its separating space, as appearing in
the assembled line. -/
def pairBytes (lvl : Int) (color : Bool) (kv : List Nat × Value) : List Nat :=
  keyBytes color kv.1 lvl ++ [61] ++ valBytes kv.2

/-- The timestamp pair of the line (its `=` lives inside the `tsKey`
constant). -/
def tsPair (color : Bool) (lvl : Int) (now : List Nat) : List Nat :=
  (if color then getColoredKey tsKeyB lvl else tsKeyB) ++ now

/-- Join pairs with a single separating space between consecutive
pairs (and no trailing separator). -/
def joinPairs : List (List Nat) → List Nat
  | [] => []
  | [p] => p
  | p :: p2 :: rest => p ++ [32] ++ joinPairs (p2 :: rest)

/-- The pairs of one emitted line in order: timestamp, level, message,
caller (when enabled), then the user fields. -/
def linePairs (cfg : Config) (msg : List Nat) (lvl : Int)
    (fields : List (List Nat × Value)) (now : List Nat)
    (cres : Option (List Nat × Int)) : List (List Nat) :=
  tsPair cfg.enableColor lvl now
    :: (keyBytes cfg.enableColor (asciiB ("level")) lvl ++ [61]
          ++ valBytes (Value.vLevel lvl))
    :: (keyBytes cfg.enableColor (asciiB ("message")) lvl ++ [61]
          ++ escapeAndWriteString msg)
    :: ((if cfg.enableCaller then
          [keyBytes cfg.enableColor (asciiB ("caller")) lvl ++ [61]
            ++ valBytes (Value.vString (caller cres))]
         else [])
        ++ fields.map (pairBytes lvl cfg.enableColor))

/-- C1: for a configured minimum level among the five defined levels,
a log call with record level L writes a line to the sink iff L is at
least the configured level; below it, the call returns immediately
with nothing written. -/
theorem C1_level_filter (cfg : Config) (msg : List Nat) (lvl : Int)
    (fields : List (List Nat × Value)) (now : List Nat)
    (cres : Option (List Nat × Int)) (wf : Bool)
    (h0 : 0 ≤ cfg.level) (h4 : cfg.level ≤ 4) :
    ((∃ bs, Event.write bs ∈ handleLog cfg msg lvl fields now cres wf)
        ↔ cfg.level ≤ lvl)
    ∧ (lvl < cfg.level → handleLog cfg msg lvl fields now cres wf = []) := by
  constructor
  · constructor
    · rintro ⟨bs, hbs⟩
      by_contra hlt
      push_neg at hlt
      simp [handleLog, hlt] at hbs
    · intro hle
      refine ⟨buildLine cfg msg lvl fields now cres, ?_⟩
      simp [handleLog, not_lt.mpr hle]
  · intro hlt
    simp [handleLog, hlt]

/-- Witness for C1 at a concrete logger configured at Info (1): an Info
record is written, a Debug record is discarded. -/
theorem C1_level_filter_witness :
    (∃ bs, Event.write bs
        ∈ handleLog ⟨1, false, false⟩ (asciiB ("hi")) 1 [] (asciiB ("T")) none false)
    ∧ handleLog ⟨1, false, false⟩ (asciiB ("hi")) 0 [] (asciiB ("T")) none false = [] :=
  ⟨(C1_level_filter ⟨1, false, false⟩ (asciiB ("hi")) 1 [] (asciiB ("T")) none false
      (by decide) (by decide)).1.mpr (by decide),
   (C1_level_filter ⟨1, false, false⟩ (asciiB ("hi")) 0 [] (asciiB ("T")) none false
      (by decide) (by decide)).2 (by decide)⟩

/-- C5: the value renderer of the newest variant maps the absent/null
value to the literal `null` (emitted as `key=null`, unquoted), while
the string consisting of the characters n-u-l-l is quoted; values with
no dedicated rule fall through to the deterministic generic rendering. -/
theorem C5_null_value_rendering :
    valBytesM Value.vNull = asciiB ("null")
    ∧ (∀ (k : List Nat) (lvl : Int) (color : Bool),
        writeToBufM k Value.vNull lvl color false
          = keyBytes color k lvl ++ [61] ++ asciiB ("null"))
    ∧ valBytesM (Value.vString nullB) = 34 :: nullB ++ [34]
    ∧ (∀ r, valBytesM (Value.vOther r) = escapeAndWriteStringM r) := by
  refine ⟨rfl, ?_, by decide, fun _ => rfl⟩
  intro k lvl color
  simp [writeToBufM, valBytesM]

/-- C6: the code contradicts the claim (and its own doc comment):
`FieldLogger.Fatal` hands `ErrorLevel` to `handleLog`, so on a logger
configured at `FatalLevel` the record is filtered out and the process
exits without any sink write having been performed. -/
theorem C6_fieldLoggerFatal_no_write_at_fatal_level :
    FieldLoggerFatal ⟨4, false, false⟩ (WithFields []) (asciiB ("boom"))
        (asciiB ("T")) none false
      = [Event.exit 1] := by decide

/-- C7: a failed sink write only adds the fallback diagnostic event to
the trace of the same call with a healthy sink; no termination or error
propagation happens and the call completes normally. -/
theorem C7_sink_failure_recovered :
    ∀ (cfg : Config) (msg : List Nat) (lvl : Int)
      (fields : List (List Nat × Value)) (now : List Nat)
      (cres : Option (List Nat × Int)),
      handleLog cfg msg lvl fields now cres true
        = handleLog cfg msg lvl fields now cres false
          ++ (if handleLog cfg msg lvl fields now cres false = [] then []
              else [Event.diag])
      ∧ (handleLog cfg msg lvl fields now cres true).all
          (fun e => !(Event.isExit e)) = true := by
  intro cfg msg lvl fields now cres
  unfold handleLog
  split
  · simp
  · simp [Event.isExit]

/-- C8: each of the five defined levels formats to its canonical
lowercase name; any other level integer formats to the sentinel
`invalid lvl` instead of failing. -/
theorem C8_levelString_names :
    levelString 0 = ("debug") ∧ levelString 1 = ("info")
    ∧ levelString 2 = ("warn") ∧ levelString 3 = ("error")
    ∧ levelString 4 = ("fatal")
    ∧ ∀ l : Int, l ≠ 0 → l ≠ 1 → l ≠ 2 → l ≠ 3 → l ≠ 4 →
        levelString l = ("invalid lvl") := by
  refine ⟨rfl, rfl, rfl, rfl, rfl, ?_⟩
  intro l h0 h1 h2 h3 h4
  simp [levelString, h0, h1, h2, h3, h4]

/-- Witness for C8 at the out-of-range levels 10 and -1. -/
theorem C8_levelString_names_witness :
    levelString 10 = ("invalid lvl") ∧ levelString (-1) = ("invalid lvl") :=
  ⟨C8_levelString_names.2.2.2.2.2 10 (by decide) (by decide) (by decide)
      (by decide) (by decide),
   C8_levelString_names.2.2.2.2.2 (-1) (by decide) (by decide) (by decide)
      (by decide) (by decide)⟩

/-- C10: a derived logger built by `WithError` from a nil error carries
no `error` field; every leveled call on it produces exactly the trace
of a derived logger built with no fields, and an unfiltered call emits
the plain line with an empty user-field segment. -/
theorem C10_withError_nil :
    (WithError none).fields = []
    ∧ (∀ (cfg : Config) (msg : List Nat) (lvl : Int) (now : List Nat)
          (cres : Option (List Nat × Int)) (wf : Bool),
        fieldLoggerLog cfg (WithError none) msg lvl now cres wf
          = fieldLoggerLog cfg (WithFields []) msg lvl now cres wf)
    ∧ (∀ (cfg : Config) (msg : List Nat) (lvl : Int) (now : List Nat)
          (cres : Option (List Nat × Int)),
        cfg.level ≤ lvl →
          fieldLoggerLog cfg (WithError none) msg lvl now cres false
            = [Event.write (buildLine cfg msg lvl [] now cres)]) := by
  refine ⟨rfl, fun _ _ _ _ _ _ => rfl, ?_⟩
  intro cfg msg lvl now cres h
  simp [fieldLoggerLog, WithError, handleLog, not_lt.mpr h]

/-- Witness for C10 at a concrete configuration and message. -/
theorem C10_withError_nil_witness :
    fieldLoggerLog ⟨1, false, false⟩ (WithError none) (asciiB ("hi")) 1
        (asciiB ("T")) none false
      = [Event.write (buildLine ⟨1, false, false⟩ (asciiB ("hi")) 1 []
          (asciiB ("T")) none)] :=
  C10_withError_nil.2.2 ⟨1, false, false⟩ (asciiB ("hi")) 1 (asciiB ("T")) none
    (by decide)

lemma escByte_length (b : Nat) : 1 ≤ (escByte b).length := by
  unfold escByte
  split_ifs <;> simp

lemma ufffdB_length : ufffdB.length = 6 := rfl

lemma utf8Encode_length_pos (c : Nat) : 1 ≤ (utf8Encode c).length := by
  unfold utf8Encode
  split_ifs <;> simp

lemma decode2_bound (b0 : Nat) (rest : List Nat) :
    1 ≤ (decode2 b0 rest).2 ∧ (decode2 b0 rest).2 ≤ 4
      ∧ (decode2 b0 rest).2 ≤ rest.length + 1 := by
  simp only [decode2]
  split_ifs <;> simp only [] <;> omega

lemma decode3_bound (b0 : Nat) (rest : List Nat) :
    1 ≤ (decode3 b0 rest).2 ∧ (decode3 b0 rest).2 ≤ 4
      ∧ (decode3 b0 rest).2 ≤ rest.length + 1 := by
  simp only [decode3]
  split_ifs <;> simp only [] <;> omega

lemma decode4_bound (b0 : Nat) (rest : List Nat) :
    1 ≤ (decode4 b0 rest).2 ∧ (decode4 b0 rest).2 ≤ 4
      ∧ (decode4 b0 rest).2 ≤ rest.length + 1 := by
  simp only [decode4]
  split_ifs <;> simp only [] <;> omega

lemma decodeRune_bound (l : List Nat) (hl : l ≠ []) :
    1 ≤ (decodeRune l).2 ∧ (decodeRune l).2 ≤ 4 ∧ (decodeRune l).2 ≤ l.length := by
  rcases l with _ | ⟨b0, rest⟩
  · exact absurd rfl hl
  · simp only [decodeRune, List.length_cons]
    split_ifs
    · simp only []; omega
    · simp only []; omega
    · exact decode2_bound b0 rest
    · exact decode3_bound b0 rest
    · exact decode4_bound b0 rest

lemma hasEscRuneF_congr :
    ∀ (f1 f2 : Nat) (l : List Nat), l.length ≤ f1 → l.length ≤ f2 →
      hasEscRuneF f1 l = hasEscRuneF f2 l := by
  intro f1
  induction f1 with
  | zero =>
    intro f2 l h1 _
    have hl : l = [] := List.length_eq_zero.mp (Nat.le_zero.mp h1)
    subst hl
    cases f2 <;> simp [hasEscRuneF]
  | succ f ih =>
    intro f2 l h1 h2
    cases l with
    | nil => cases f2 <;> simp [hasEscRuneF]
    | cons b rest =>
      cases f2 with
      | zero => simp at h2
      | succ f2 =>
        obtain ⟨hb1, hb2, hb3⟩ := decodeRune_bound (b :: rest) (by simp)
        simp only [hasEscRuneF]
        congr 1
        apply ih
        · rw [List.length_drop]
          simp only [List.length_cons] at h1 hb3 ⊢
          omega
        · rw [List.length_drop]
          simp only [List.length_cons] at h2 hb3 ⊢
          omega

lemma escBodyF_congr :
    ∀ (f1 f2 : Nat) (l : List Nat), l.length ≤ f1 → l.length ≤ f2 →
      escBodyF f1 l = escBodyF f2 l := by
  intro f1
  induction f1 with
  | zero =>
    intro f2 l h1 _
    have hl : l = [] := List.length_eq_zero.mp (Nat.le_zero.mp h1)
    subst hl
    cases f2 <;> simp [escBodyF]
  | succ f ih =>
    intro f2 l h1 h2
    cases l with
    | nil => cases f2 <;> simp [escBodyF]
    | cons b rest =>
      cases f2 with
      | zero => simp at h2
      | succ f2 =>
        obtain ⟨hb1, hb2, hb3⟩ := decodeRune_bound (b :: rest) (by simp)
        simp only [List.length_cons] at h1 h2 hb3
        have hrest1 : rest.length ≤ f := by omega
        have hrest2 : rest.length ≤ f2 := by omega
        have hdrop1 : ((b :: rest).drop (decodeRune (b :: rest)).2).length ≤ f := by
          rw [List.length_drop]; simp only [List.length_cons]; omega
        have hdrop2 : ((b :: rest).drop (decodeRune (b :: rest)).2).length ≤ f2 := by
          rw [List.length_drop]; simp only [List.length_cons]; omega
        simp only [escBodyF]
        split_ifs
        · rw [ih f2 rest hrest1 hrest2]
        · rw [ih f2 rest hrest1 hrest2]
        · rw [ih f2 _ hdrop1 hdrop2]
        · rw [ih f2 _ hdrop1 hdrop2]

lemma escBodyF_len :
    ∀ (fuel : Nat) (l : List Nat), l.length ≤ fuel →
      l.length ≤ (escBodyF fuel l).length := by
  intro fuel
  induction fuel with
  | zero =>
    intro l h
    have hl : l = [] := List.length_eq_zero.mp (Nat.le_zero.mp h)
    subst hl
    simp [escBodyF]
  | succ f ih =>
    intro l h
    cases l with
    | nil => simp [escBodyF]
    | cons b rest =>
      obtain ⟨hb1, hb2, hb3⟩ := decodeRune_bound (b :: rest) (by simp)
      simp only [List.length_cons] at h hb3
      simp only [escBodyF]
      split_ifs
      · have := ih rest (by omega)
        simp only [List.length_cons]
        omega
      · have h1 := ih rest (by omega)
        have h2 := escByte_length b
        rw [List.length_append]
        simp only [List.length_cons]
        omega
      · have h1 := ih ((b :: rest).drop (decodeRune (b :: rest)).2)
          (by rw [List.length_drop]; simp only [List.length_cons]; omega)
        rw [List.length_drop] at h1
        rw [List.length_append, ufffdB_length]
        simp only [List.length_cons] at h1 ⊢
        omega
      · have h1 := ih ((b :: rest).drop (decodeRune (b :: rest)).2)
          (by rw [List.length_drop]; simp only [List.length_cons]; omega)
        rw [List.length_drop] at h1
        have ht : ((b :: rest).take (decodeRune (b :: rest)).2).length
            = (decodeRune (b :: rest)).2 := by
          rw [List.length_take]
          exact min_eq_left (by simp only [List.length_cons]; omega)
        rw [List.length_append, ht]
        simp only [List.length_cons] at h1 ⊢
        omega

lemma hasEscRune_cons (b : Nat) (rest : List Nat) :
    hasEscRune (b :: rest)
      = (checkEscapingRune (decodeRune (b :: rest)).1
          || hasEscRune ((b :: rest).drop (decodeRune (b :: rest)).2)) := by
  obtain ⟨hb1, hb2, hb3⟩ := decodeRune_bound (b :: rest) (by simp)
  unfold hasEscRune
  simp only [List.length_cons, hasEscRuneF]
  congr 1
  apply hasEscRuneF_congr
  · rw [List.length_drop]; simp only [List.length_cons] at hb3 ⊢; omega
  · exact le_refl _

lemma wqsLoop_eq (s : List Nat) :
    ∀ (fuel start i : Nat), start ≤ i → s.length - i ≤ fuel →
      writeQuotedStringLoop s fuel start i
        = (s.drop start).take (i - start) ++ escBodyF (s.length - i) (s.drop i) := by
  intro fuel
  induction fuel with
  | zero =>
    intro start i hsi hfu
    have hle : s.length ≤ i := by omega
    have h0 : s.length - i = 0 := by omega
    rw [h0]
    simp only [writeQuotedStringLoop, escBodyF, List.append_nil]
    rw [List.take_of_length_le (by rw [List.length_drop]),
      List.take_of_length_le (by rw [List.length_drop]; omega)]
  | succ f ih =>
    intro start i hsi hfu
    by_cases h : i < s.length
    · have hd : s.drop i = s.get ⟨i, h⟩ :: s.drop (i + 1) := by
        rw [List.drop_eq_getElem_cons h, List.get_eq_getElem]
      have hnil : s.drop i ≠ [] :=
        List.ne_nil_of_length_pos (by rw [List.length_drop]; omega)
      obtain ⟨hn1, hn2, hn3⟩ := decodeRune_bound (s.drop i) hnil
      rw [List.length_drop] at hn3
      have hsub : s.length - i = (s.length - (i + 1)) + 1 := by omega
      simp only [writeQuotedStringLoop]
      rw [dif_pos h, hsub, hd]
      simp only [escBodyF]
      rw [← hd]
      split_ifs with hb hcond hfffd
      · -- plain ASCII byte, copied verbatim
        rw [ih start (i + 1) (by omega) (by omega)]
        have h1 : i + 1 - start = (i - start) + 1 := by omega
        have hget : (s.drop start)[i - start]? = some (s.get ⟨i, h⟩) := by
          rw [List.getElem?_drop]
          have h2 : start + (i - start) = i := by omega
          rw [h2, List.getElem?_eq_getElem h, List.get_eq_getElem]
        rw [h1, List.take_succ, hget]
        simp [List.append_assoc]
      · -- ASCII byte that needs escaping
        rw [ih (i + 1) (i + 1) (le_refl _) (by omega)]
        simp [List.append_assoc]
      · -- invalid sequence, replaced by the ufffd literal
        rw [ih (i + (decodeRune (s.drop i)).2) (i + (decodeRune (s.drop i)).2)
          (le_refl _) (by omega)]
        rw [List.drop_drop]
        rw [escBodyF_congr (s.length - (i + 1))
          (s.length - (i + (decodeRune (s.drop i)).2))
          (s.drop (i + (decodeRune (s.drop i)).2))
          (by rw [List.length_drop]; omega) (by rw [List.length_drop])]
        simp [List.append_assoc]
      · -- valid multi-byte sequence, copied verbatim
        rw [ih start (i + (decodeRune (s.drop i)).2) (by omega) (by omega)]
        rw [List.drop_drop]
        rw [escBodyF_congr (s.length - (i + 1))
          (s.length - (i + (decodeRune (s.drop i)).2))
          (s.drop (i + (decodeRune (s.drop i)).2))
          (by rw [List.length_drop]; omega) (by rw [List.length_drop])]
        have hmerge : (s.drop start).take (i + (decodeRune (s.drop i)).2 - start)
            = (s.drop start).take (i - start) ++ (s.drop i).take (decodeRune (s.drop i)).2 := by
          have h1 : i + (decodeRune (s.drop i)).2 - start
              = (i - start) + (decodeRune (s.drop i)).2 := by omega
          rw [h1, List.take_add, List.drop_drop]
          have h2 : start + (i - start) = i := by omega
          rw [h2]
        rw [hmerge]
        simp [List.append_assoc]
    · have hle : s.length ≤ i := by omega
      have h0 : s.length - i = 0 := by omega
      rw [h0]
      simp only [writeQuotedStringLoop, escBodyF, List.append_nil]
      rw [dif_neg h]
      rw [List.take_of_length_le (by rw [List.length_drop]),
        List.take_of_length_le (by rw [List.length_drop]; omega)]

lemma writeQuotedString_eq_escBody (s : List Nat) :
    writeQuotedString s = 34 :: (escBody s ++ [34]) := by
  unfold writeQuotedString escBody
  rw [wqsLoop_eq s s.length 0 0 (le_refl 0) (by omega)]
  simp

lemma writeQuotedString_length (s : List Nat) :
    s.length + 2 ≤ (writeQuotedString s).length := by
  rw [writeQuotedString_eq_escBody]
  have := escBodyF_len s.length s (le_refl _)
  simp only [List.length_cons, List.length_append, List.length_singleton, escBody]
  omega

lemma writeQuotedString_ne_self (s : List Nat) : writeQuotedString s ≠ s := by
  intro he
  have h := writeQuotedString_length s
  rw [he] at h
  omega

lemma take_one {α : Type} (a : α) (l : List α) : (a :: l).take 1 = [a] := rfl

lemma take2_eq (b0 : Nat) (rest : List Nat) (h : 1 ≤ rest.length) :
    (b0 :: rest).take 2 = [b0, byteAt0 rest] := by
  rcases rest with _ | ⟨b1, t⟩
  · simp at h
  · rfl

lemma take3_eq (b0 : Nat) (rest : List Nat) (h : 2 ≤ rest.length) :
    (b0 :: rest).take 3 = [b0, byteAt0 rest, byteAt1 rest] := by
  rcases rest with _ | ⟨b1, _ | ⟨b2, t⟩⟩
  · simp at h
  · simp at h
  · rfl

lemma take4_eq (b0 : Nat) (rest : List Nat) (h : 3 ≤ rest.length) :
    (b0 :: rest).take 4 = [b0, byteAt0 rest, byteAt1 rest, byteAt2 rest] := by
  rcases rest with _ | ⟨b1, _ | ⟨b2, _ | ⟨b3, t⟩⟩⟩
  · simp at h
  · simp at h
  · simp at h
  · rfl

set_option maxHeartbeats 800000 in
lemma decode_encode (c : Nat) (rest : List Nat) (h : isScalar c) :
    decodeRune (utf8Encode c ++ rest) = (c, (utf8Encode c).length) := by
  obtain ⟨hlt, hsur⟩ := h
  simp only [utf8Encode]
  split_ifs with h1 h2 h3
  · -- one byte
    simp only [List.cons_append, List.nil_append, decodeRune, List.length_cons,
      List.length_nil]
    rw [if_pos h1]
  · -- two bytes
    simp only [List.cons_append, List.nil_append, decodeRune, decode2, byteAt0,
      acceptLo, acceptHi, List.length_cons, List.length_nil]
    split_ifs <;>
      first
        | omega
        | (simp only [Prod.mk.injEq, and_true]; omega)
  · -- three bytes
    simp only [List.cons_append, List.nil_append, decodeRune, decode3, byteAt0,
      byteAt1, acceptLo, acceptHi, List.length_cons, List.length_nil]
    split_ifs <;>
      first
        | omega
        | (simp only [Prod.mk.injEq, and_true]; omega)
  · -- four bytes
    simp only [List.cons_append, List.nil_append, decodeRune, decode4, byteAt0,
      byteAt1, byteAt2, acceptLo, acceptHi, List.length_cons, List.length_nil]
    split_ifs <;>
      first
        | omega
        | (simp only [Prod.mk.injEq, and_true]; omega)

set_option maxHeartbeats 800000 in
lemma decode_valid (l : List Nat) (c n : Nat)
    (h : decodeRune l = (c, n)) (hc : c ≠ 0xFFFD) :
    isScalar c ∧ l.take n = utf8Encode c ∧ n = (utf8Encode c).length := by
  rcases l with _ | ⟨b0, rest⟩
  · simp only [decodeRune, Prod.mk.injEq] at h
    exact absurd h.1.symm hc
  · simp only [decodeRune] at h
    split_ifs at h with hb0a hb0b hb0c hb0d
    · -- ASCII byte
      simp only [Prod.mk.injEq] at h
      obtain ⟨hc1, hn1⟩ := h
      subst hc1
      subst hn1
      refine ⟨⟨by omega, by omega⟩, ?_, ?_⟩
      · rw [take_one]
        simp only [utf8Encode]
        rw [if_pos hb0a]
      · simp only [utf8Encode]
        rw [if_pos hb0a]
        rfl
    · -- invalid starter
      simp only [Prod.mk.injEq] at h
      exact absurd h.1.symm hc
    · -- two-byte class
      simp only [decode2, acceptLo, acceptHi] at h
      split_ifs at h <;> simp only [Prod.mk.injEq] at h <;>
        obtain ⟨hc1, hn1⟩ := h <;> subst hc1 <;> subst hn1 <;>
        first
          | exact absurd rfl hc
          | (refine ⟨⟨by omega, by omega⟩, ?_, ?_⟩
             · rw [take2_eq b0 rest (by omega)]
               simp only [utf8Encode]
               split_ifs <;>
                 first
                   | omega
                   | (simp only [List.cons.injEq, eq_self_iff_true, and_true]
                      omega)
             · simp only [utf8Encode]
               split_ifs <;> first | omega | rfl)
    · -- three-byte class
      simp only [decode3, acceptLo, acceptHi] at h
      split_ifs at h <;> simp only [Prod.mk.injEq] at h <;>
        obtain ⟨hc1, hn1⟩ := h <;> subst hc1 <;> subst hn1 <;>
        first
          | exact absurd rfl hc
          | (refine ⟨⟨by omega, by omega⟩, ?_, ?_⟩
             · rw [take3_eq b0 rest (by omega)]
               simp only [utf8Encode]
               split_ifs <;>
                 first
                   | omega
                   | (simp only [List.cons.injEq, eq_self_iff_true, and_true]
                      omega)
             · simp only [utf8Encode]
               split_ifs <;> first | omega | rfl)
    · -- four-byte class
      simp only [decode4, acceptLo, acceptHi] at h
      split_ifs at h <;> simp only [Prod.mk.injEq] at h <;>
        obtain ⟨hc1, hn1⟩ := h <;> subst hc1 <;> subst hn1 <;>
        first
          | exact absurd rfl hc
          | (refine ⟨⟨by omega, by omega⟩, ?_, ?_⟩
             · rw [take4_eq b0 rest (by omega)]
               simp only [utf8Encode]
               split_ifs <;>
                 first
                   | omega
                   | (simp only [List.cons.injEq, eq_self_iff_true, and_true]
                      omega)
             · simp only [utf8Encode]
               split_ifs <;> first | omega | rfl)


lemma hasEscRune_false_iff (s : List Nat) :
    hasEscRune s = false ↔
      ∃ cs : List Nat, s = (cs.map utf8Encode).flatten
        ∧ ∀ c ∈ cs, isScalar c ∧ checkEscapingRune c = false := by
  suffices key : ∀ (n : Nat) (t : List Nat), t.length ≤ n →
      (hasEscRune t = false ↔
        ∃ cs : List Nat, t = (cs.map utf8Encode).flatten
          ∧ ∀ c ∈ cs, isScalar c ∧ checkEscapingRune c = false) from
    key s.length s (le_refl _)
  intro n
  induction n with
  | zero =>
    intro t ht
    have hte : t = [] := List.length_eq_zero.mp (Nat.le_zero.mp ht)
    subst hte
    constructor
    · intro _
      exact ⟨[], by simp, by simp⟩
    · intro _
      rfl
  | succ n ih =>
    intro t ht
    rcases t with _ | ⟨b, rest⟩
    · constructor
      · intro _
        exact ⟨[], by simp, by simp⟩
      · intro _
        rfl
    · rw [hasEscRune_cons]
      obtain ⟨hk1, hk2, hk3⟩ := decodeRune_bound (b :: rest) (by simp)
      rcases hdec : decodeRune (b :: rest) with ⟨c0, k⟩
      rw [hdec] at hk1 hk2 hk3
      simp only [] at hk1 hk2 hk3 ⊢
      simp only [Bool.or_eq_false_iff]
      constructor
      · rintro ⟨hck, hrest⟩
        have hcne : c0 ≠ 0xFFFD := by
          intro he
          subst he
          simp [checkEscapingRune] at hck
        obtain ⟨hsc, htake, hlen⟩ := decode_valid _ _ _ hdec hcne
        have hdl : ((b :: rest).drop k).length ≤ n := by
          rw [List.length_drop]
          simp only [List.length_cons] at ht hk3 ⊢
          omega
        obtain ⟨cs, hcs1, hcs2⟩ := (ih _ hdl).mp hrest
        refine ⟨c0 :: cs, ?_, ?_⟩
        · simp only [List.map_cons, List.flatten_cons]
          rw [← hcs1, ← htake, List.take_append_drop]
        · intro x hx
          rcases List.mem_cons.mp hx with rfl | hx2
          · exact ⟨hsc, hck⟩
          · exact hcs2 x hx2
      · rintro ⟨cs, hcs1, hcs2⟩
        rcases cs with _ | ⟨c1, cs⟩
        · simp at hcs1
        · simp only [List.map_cons, List.flatten_cons] at hcs1
          obtain ⟨hp1, hp2⟩ := hcs2 c1 (List.mem_cons_self _ _)
          have hdec2 : decodeRune (b :: rest) = (c1, (utf8Encode c1).length) := by
            rw [hcs1]
            exact decode_encode c1 _ hp1
          rw [hdec] at hdec2
          simp only [Prod.mk.injEq] at hdec2
          obtain ⟨hc1e, hke⟩ := hdec2
          subst hc1e
          subst hke
          refine ⟨hp2, ?_⟩
          have hdrop : (b :: rest).drop (utf8Encode c0).length
              = (cs.map utf8Encode).flatten := by
            rw [hcs1]
            exact List.drop_left _ _
          rw [hdrop]
          refine (ih _ ?_).mpr ⟨cs, rfl, fun x hx => hcs2 x (List.mem_cons_of_mem _ hx)⟩
          have hel := utf8Encode_length_pos c0
          have hsplit : (b :: rest).length
              = (utf8Encode c0).length + ((cs.map utf8Encode).flatten).length := by
            rw [hcs1, List.length_append]
          simp only [List.length_cons] at ht hsplit
          omega

lemma escBody_encode_cons (c : Nat) (rest : List Nat) (hsc : isScalar c)
    (hge : 0x80 ≤ c) (hne : c ≠ 0xFFFD) :
    escBody (utf8Encode c ++ rest) = utf8Encode c ++ escBody rest := by
  have hnn : utf8Encode c ≠ [] :=
    List.ne_nil_of_length_pos (by have := utf8Encode_length_pos c; omega)
  rcases henc : utf8Encode c with _ | ⟨b, tl⟩
  · exact absurd henc hnn
  · have hdec := decode_encode c rest hsc
    rw [henc, List.cons_append] at hdec
    have hb : ¬ (b < 0x80) := by
      intro hblt
      simp only [decodeRune, if_pos hblt, Prod.mk.injEq] at hdec
      omega
    have hd1 : (decodeRune (b :: (tl ++ rest))).1 = c := by rw [hdec]
    have hd2 : (decodeRune (b :: (tl ++ rest))).2 = (b :: tl).length := by
      rw [hdec]
    simp only [List.cons_append]
    unfold escBody
    simp only [List.length_cons, escBodyF]
    rw [if_neg hb, hd1, if_neg hne, hd2]
    rw [← List.cons_append, List.take_left, List.drop_left]
    rw [List.cons_append]
    congr 1
    congr 1
    apply escBodyF_congr
    · rw [List.length_append]
      omega
    · exact le_refl _

lemma escBody_ufffd (rest : List Nat) :
    escBody (utf8Encode 0xFFFD ++ rest) = ufffdB ++ escBody rest := by
  have hdec := decode_encode 0xFFFD rest (by decide)
  have henc : utf8Encode 0xFFFD = [239, 191, 189] := by decide
  rw [henc] at hdec
  rw [henc]
  simp only [List.cons_append, List.nil_append] at hdec ⊢
  have hb : ¬ ((239 : Nat) < 0x80) := by omega
  have hd1 : (decodeRune (239 :: 191 :: 189 :: rest)).1 = 0xFFFD := by
    rw [hdec]
  have hd2 : (decodeRune (239 :: 191 :: 189 :: rest)).2 = 3 := by
    rw [hdec]
    decide
  unfold escBody
  simp only [List.length_cons, escBodyF]
  rw [if_neg hb, hd1, if_pos rfl, hd2]
  have hdrop : (239 :: 191 :: 189 :: rest).drop 3 = rest := rfl
  rw [hdrop]
  congr 1
  apply escBodyF_congr
  · omega
  · exact le_refl _

/-- C2 counterexample: the three bytes EF BF BD are the valid UTF-8
encoding of the scalar value U+FFFD — not an invalid sequence — yet
`writeQuotedString` does not copy them verbatim between the quotes: it
replaces them with the literal ufffd escape, because the source only
tests the decoded rune, which is U+FFFD for invalid input and for the
replacement character's own valid encoding alike. -/
theorem C2_writeQuotedString_counterexample :
    ([0xEF, 0xBF, 0xBD] : List Nat) = utf8Encode 0xFFFD
    ∧ isScalar 0xFFFD
    ∧ writeQuotedString [0xEF, 0xBF, 0xBD] = 34 :: (ufffdB ++ [34])
    ∧ writeQuotedString [0xEF, 0xBF, 0xBD]
        ≠ 34 :: (([0xEF, 0xBF, 0xBD] : List Nat) ++ [34]) := by
  decide

/-- C2 (amended): source `writeQuotedString` wraps its output in double
quotes and between them applies exactly the transformation `escBody`:
backslash and double quote get a preceding backslash, newline, carriage
return and tab become the two-character escapes, any other byte below
0x20 becomes `\u00HH` with two lowercase hex digits, every sequence
decoding to U+FFFD — every invalid UTF-8 sequence and also the valid
three-byte encoding of the replacement character itself — is replaced
by the literal ufffd escape, every other valid multi-byte sequence is
copied verbatim, and all remaining bytes are copied verbatim; escaping
the one-character string consisting of a double quote yields, byte for
byte, quote backslash quote quote. -/
theorem C2_writeQuotedString_spec :
    (∀ s : List Nat, writeQuotedString s = 34 :: (escBody s ++ [34]))
    ∧ (∀ (c : Nat) (rest : List Nat), isScalar c → 0x80 ≤ c → c ≠ 0xFFFD →
        escBody (utf8Encode c ++ rest) = utf8Encode c ++ escBody rest)
    ∧ (∀ rest : List Nat,
        escBody (utf8Encode 0xFFFD ++ rest) = ufffdB ++ escBody rest)
    ∧ writeQuotedString [34] = [34, 92, 34, 34] :=
  ⟨writeQuotedString_eq_escBody, escBody_encode_cons, escBody_ufffd, by decide⟩

/-- Witness for C2 at the euro sign (scalar 0x20AC) followed by the
letter a: the valid sequence is copied verbatim. -/
theorem C2_writeQuotedString_spec_witness :
    escBody (utf8Encode 0x20AC ++ [97]) = utf8Encode 0x20AC ++ escBody [97] :=
  C2_writeQuotedString_spec.2.1 0x20AC [97] (by decide) (by decide) (by decide)

/-- C3 counterexample: the three bytes EF BF BD are the valid UTF-8
encoding of the scalar U+FFFD, contain no equals sign, space or quote
byte, and differ from the literal null, yet the escaper quotes them
(because `checkEscapingRune` also fires on a decoded U+FFFD), so the
claimed verbatim case does not apply. -/
theorem C3_escape_gate_counterexample :
    ([0xEF, 0xBF, 0xBD] : List Nat) = utf8Encode 0xFFFD
    ∧ isScalar 0xFFFD
    ∧ (61 : Nat) ∉ ([0xEF, 0xBF, 0xBD] : List Nat)
    ∧ (32 : Nat) ∉ ([0xEF, 0xBF, 0xBD] : List Nat)
    ∧ (34 : Nat) ∉ ([0xEF, 0xBF, 0xBD] : List Nat)
    ∧ ([0xEF, 0xBF, 0xBD] : List Nat) ≠ nullB
    ∧ escapeAndWriteStringM [0xEF, 0xBF, 0xBD] ≠ [0xEF, 0xBF, 0xBD]
    ∧ escapeAndWriteString [0xEF, 0xBF, 0xBD] ≠ [0xEF, 0xBF, 0xBD] := by
  decide

/-- C3 (amended): the escaper appends the input verbatim if and only if
the input decomposes into scalar values none of which is an equals
sign, a space, a double quote or U+FFFD (so: valid UTF-8 free of the
three special characters and of the replacement character), and the
input is not the exact literal null; in particular a lone backslash is
appended unquoted and the literal null is emitted in its quoted form. -/
theorem C3_escape_gate :
    (∀ s : List Nat,
      escapeAndWriteStringM s = s ↔
        ((∃ cs : List Nat, s = (cs.map utf8Encode).flatten
            ∧ ∀ c ∈ cs, isScalar c ∧ checkEscapingRune c = false)
          ∧ s ≠ nullB))
    ∧ escapeAndWriteStringM [92] = [92]
    ∧ escapeAndWriteStringM nullB = 34 :: (nullB ++ [34]) := by
  refine ⟨?_, by decide, by decide⟩
  intro s
  unfold escapeAndWriteStringM
  split_ifs with hgate
  · constructor
    · intro he
      exact absurd he (writeQuotedString_ne_self s)
    · rintro ⟨hclean, hnull⟩
      rcases hgate with hesc | hnull2
      · rw [(hasEscRune_false_iff s).mpr hclean] at hesc
        cases hesc
      · exact absurd hnull2 hnull
  · push_neg at hgate
    constructor
    · intro _
      refine ⟨(hasEscRune_false_iff s).mp ?_, hgate.2⟩
      simpa using hgate.1
    · intro _
      rfl

lemma joinPairs_cons (p : List Nat) (rest : List (List Nat)) (h : rest ≠ []) :
    joinPairs (p :: rest) = p ++ [32] ++ joinPairs rest := by
  rcases rest with _ | ⟨q, t⟩
  · exact absurd rfl h
  · rfl

lemma fieldsBytes_eq_joinPairs (lvl : Int) (color : Bool) :
    ∀ fs : List (List Nat × Value),
      fieldsBytes lvl color fs = joinPairs (fs.map (pairBytes lvl color)) := by
  intro fs
  induction fs with
  | nil => rfl
  | cons kv rest ih =>
    rcases rest with _ | ⟨kv2, t⟩
    · simp [fieldsBytes, joinPairs, writeToBuf, pairBytes]
    · simp only [fieldsBytes, List.map_cons]
      rw [ih, joinPairs_cons _ _ (by simp)]
      simp [writeToBuf, pairBytes, List.append_assoc]

lemma buildLine_eq (cfg : Config) (msg : List Nat) (lvl : Int)
    (fields : List (List Nat × Value)) (now : List Nat)
    (cres : Option (List Nat × Int)) :
    buildLine cfg msg lvl fields now cres
      = joinPairs (linePairs cfg msg lvl fields now cres)
        ++ (if fields = [] then [32] else []) ++ [10] := by
  unfold buildLine linePairs
  rcases fields with _ | ⟨f0, frest⟩ <;> rcases hc : cfg.enableCaller <;>
    simp [hc, writeTimeToBuf, writeToBuf, writeStringToBuf, tsPair, pairBytes,
      fieldsBytes_eq_joinPairs, joinPairs_cons, joinPairs, fieldsBytes,
      List.append_assoc]

/-- C4 counterexample: with no user fields, the message pair keeps its
trailing space, so the emitted line has a space immediately before the
terminating newline (bytes 32 then 10 at the end), contradicting the
no-trailing-space clause of the claim. -/
theorem C4_line_shape_counterexample :
    handleLog ⟨1, false, false⟩ (asciiB ("hi")) 1 [] (asciiB ("T")) none false
      = [Event.write (asciiB ("timestamp=T level=info message=hi ") ++ [10])]
    ∧ (asciiB ("timestamp=T level=info message=hi ") ++ [10]).reverse.take 2
        = [10, 32] := by
  decide

/-- C4 (amended): every line an unfiltered call writes consists of the
pairs timestamp, level, message, caller (only when caller reporting is
enabled), then the user fields, in that order, with consecutive pairs
separated by a single space and terminated by a newline; there is no
trailing space before the newline when at least one user field is
present, and exactly one trailing space when there are none. -/
theorem C4_line_shape (cfg : Config) (msg : List Nat) (lvl : Int)
    (fields : List (List Nat × Value)) (now : List Nat)
    (cres : Option (List Nat × Int)) (wf : Bool) (bs : List Nat)
    (hmem : Event.write bs ∈ handleLog cfg msg lvl fields now cres wf) :
    bs = joinPairs (linePairs cfg msg lvl fields now cres)
      ++ (if fields = [] then [32] else []) ++ [10] := by
  unfold handleLog at hmem
  split_ifs at hmem with hlt hwf
  · simp at hmem
  · rcases List.mem_cons.mp hmem with heq | hmem2
    · simp only [Event.write.injEq] at heq
      subst heq
      exact buildLine_eq cfg msg lvl fields now cres
    · simp at hmem2
  · rcases List.mem_cons.mp hmem with heq | hmem2
    · simp only [Event.write.injEq] at heq
      subst heq
      exact buildLine_eq cfg msg lvl fields now cres
    · simp at hmem2

/-- Witness for C4 at a concrete no-field call. -/
theorem C4_line_shape_witness :
    asciiB ("timestamp=T level=info message=hi ") ++ [10]
      = joinPairs (linePairs ⟨1, false, false⟩ (asciiB ("hi")) 1 []
          (asciiB ("T")) none)
        ++ (if ([] : List (List Nat × Value)) = [] then [32] else []) ++ [10] :=
  C4_line_shape ⟨1, false, false⟩ (asciiB ("hi")) 1 [] (asciiB ("T")) none false
    (asciiB ("timestamp=T level=info message=hi ") ++ [10]) (by decide)

/-- C9: when the runtime cannot resolve the call site, `caller` returns
the sentinel file ??? with line 0; with caller reporting enabled an
unfiltered call still writes its line normally (no error event), and
the line carries the caller pair with the sentinel value. -/
theorem C9_caller_sentinel :
    caller none = asciiB ("???:0")
    ∧ ∀ (cfg : Config) (msg : List Nat) (lvl : Int)
        (fields : List (List Nat × Value)) (now : List Nat) (wf : Bool),
        cfg.enableCaller = true → cfg.enableColor = false → cfg.level ≤ lvl →
          handleLog cfg msg lvl fields now none wf
            = Event.write (buildLine cfg msg lvl fields now none)
              :: (if wf then [Event.diag] else [])
          ∧ (asciiB (" caller=???:0 ")).IsInfix
              (buildLine cfg msg lvl fields now none) := by
  refine ⟨by decide, ?_⟩
  intro cfg msg lvl fields now wf hcal hcol hle
  have hcp : writeToBuf (asciiB ("caller")) (Value.vString (caller none)) lvl
      false true = asciiB ("caller=???:0 ") := by
    simp [writeToBuf, keyBytes, valBytes]
    decide
  obtain ⟨lv, co, ca⟩ := cfg
  simp only at hcal hcol hle
  subst hcal
  subst hcol
  refine ⟨by simp [handleLog, not_lt.mpr hle], ?_⟩
  refine ⟨writeTimeToBuf false lvl now
      ++ writeToBuf (asciiB ("level")) (Value.vLevel lvl) lvl false true
      ++ (keyBytes false (asciiB ("message")) lvl ++ [61]
          ++ escapeAndWriteString msg),
    fieldsBytes lvl false fields ++ [10], ?_⟩
  have hsp : asciiB (" caller=???:0 ") = 32 :: asciiB ("caller=???:0 ") := by
    decide
  rw [hsp, ← hcp]
  simp [buildLine, writeStringToBuf, List.append_assoc]

/-- Witness for C9 at a concrete caller-enabled logger. -/
theorem C9_caller_sentinel_witness :
    handleLog ⟨0, false, true⟩ (asciiB ("m")) 2 [] (asciiB ("T")) none false
      = Event.write (buildLine ⟨0, false, true⟩ (asciiB ("m")) 2 []
          (asciiB ("T")) none)
        :: (if false then [Event.diag] else [])
    ∧ (asciiB (" caller=???:0 ")).IsInfix
        (buildLine ⟨0, false, true⟩ (asciiB ("m")) 2 [] (asciiB ("T")) none) :=
  C9_caller_sentinel.2 ⟨0, false, true⟩ (asciiB ("m")) 2 [] (asciiB ("T")) false
    rfl rfl (by decide)

end Logf
